import Mathlib

/-!
Shallow embedding of `transcribe.py`, a batch driver that walks a directory
for audio files, invokes an external speech-to-text capability on each one,
and writes the results in up to four formats (txt, json, srt, vtt) to a
per-file output directory.

External capabilities (the recognition model, the filesystem, the caption
writers, JSON serialization) are modelled as oracles supplied in an
environment; the driver itself is embedded as a pure function producing a
trace of observable events together with a process outcome.
-/

namespace Transcripts

/-!
String primitives. These re-implement the Python string operations the
program uses by structural recursion over the character list, so that every
definition evaluates by kernel reduction on concrete inputs.
-/

/-- `s.lower()` (basic-latin case folding, as both sides use). -/
def pyLower (s : String) : String :=
  ⟨s.data.map Char.toLower⟩

/-- `s.strip()`: remove leading and trailing whitespace. -/
def pyTrim (s : String) : String :=
  ⟨((s.data.dropWhile Char.isWhitespace).reverse.dropWhile Char.isWhitespace).reverse⟩

/-- `str.split(sep)` for a one-character separator, on character lists:
always at least one (possibly empty) part. -/
def splitOnChar (c : Char) : List Char → List (List Char)
  | [] => [[]]
  | x :: xs =>
      if x = c then [] :: splitOnChar c xs
      else
        match splitOnChar c xs with
        | [] => [[x]]
        | h :: t => (x :: h) :: t

/-- `s.split(c)` for a one-character separator. -/
def pySplit (s : String) (c : Char) : List String :=
  (splitOnChar c s.data).map fun l => ⟨l⟩

/-- `s.endswith(suffix)`. -/
def pyEndsWith (s suffix : String) : Bool :=
  suffix.data.isSuffixOf s.data

/-- `s.startswith(p)`. -/
def pyStartsWith (s p : String) : Bool :=
  p.data.isPrefixOf s.data

/-- Lexicographic comparison of character lists, the executable form of the
list order underlying string comparison. -/
def charListLe : List Char → List Char → Bool
  | [], _ => true
  | _ :: _, [] => false
  | a :: as, b :: bs =>
      if a < b then true
      else if b < a then false
      else charListLe as bs

/-- Boolean lexicographic string order, used by `sorted`. -/
def strLe (a b : String) : Bool :=
  charListLe a.data b.data

/-- Insert a string into a sorted list, keeping it sorted. -/
def insertSorted (x : String) : List String → List String
  | [] => [x]
  | y :: ys => if strLe x y then x :: y :: ys else y :: insertSorted x ys

/-- `sorted(found)`: ascending lexicographic sort. -/
def sortStrings : List String → List String
  | [] => []
  | x :: xs => insertSorted x (sortStrings xs)

/-- `os.path.join(a, b)` on POSIX for the cases exercised here: an absolute
second component replaces the first; otherwise a separator is inserted
unless the first part is empty or already ends with one. -/
def pyJoin (a b : String) : String :=
  if pyStartsWith b "/" then b
  else if a == "" || pyEndsWith a "/" then a ++ b
  else a ++ "/" ++ b

/-- `s.endswith(tuple(exts))`: does `s` end with some member of `exts`? -/
def endsWithAny (s : String) (exts : List String) : Bool :=
  exts.any fun e => pyEndsWith s e

/-- Index of the last `'.'` in a character list, if any. -/
def lastDot (cs : List Char) : Option Nat :=
  ((List.range cs.length).filter fun j => cs.get? j = some '.').getLast?

/-- `os.path.basename`: the part of the path after the last `'/'`. -/
def pyBasename (p : String) : String :=
  match (pySplit p '/').getLast? with
  | some s => s
  | none => p

/-- `os.path.splitext(name)[0]` for a path without separators: drop the part
from the last dot on, except that a name whose characters before that dot
are all dots (a leading-dot name such as `.bashrc`) has no extension. -/
def splitextRoot (s : String) : String :=
  let cs := s.data
  match lastDot cs with
  | none => s
  | some i => if (cs.take i).all (· = '.') then s else ⟨cs.take i⟩

/-- `os.path.splitext(os.path.basename(file_path))[0]` as used to derive the
per-file output sub-directory name. -/
def stem (p : String) : String :=
  splitextRoot (pyBasename p)

/-! ## Filesystem model for the File Locator -/

/-- A directory's entry list, as a first-order tree: empty, a plain file
followed by the remaining entries, or a sub-directory (with its own entry
list) followed by the remaining entries. -/
inductive FSTree where
  | nilE : FSTree
  | fileE (name : String) (rest : FSTree) : FSTree
  | dirE (name : String) (sub : FSTree) (rest : FSTree) : FSTree
deriving Repr, DecidableEq

/-- The filesystem object found at the root path handed to the File
Locator: either a plain file or a directory with its entry list. -/
inductive RootFS where
  | file
  | dir (entries : FSTree)
deriving Repr, DecidableEq

/-- The matching files directly inside one directory, joined with its path:
the contribution of a single `os.walk` tuple to `found`. -/
def filesHere (exts : List String) (dirpath : String) : FSTree → List String
  | .nilE => []
  | .fileE n rest =>
      (if endsWithAny (pyLower n) exts then [pyJoin dirpath n] else [])
        ++ filesHere exts dirpath rest
  | .dirE _ _ rest => filesHere exts dirpath rest

/-- The matching files contributed by all sub-directories of a directory,
in `os.walk` top-down order: each sub-directory's own files first, then its
descendants, then the following siblings. -/
def walkSubs (exts : List String) (dirpath : String) : FSTree → List String
  | .nilE => []
  | .fileE _ rest => walkSubs exts dirpath rest
  | .dirE n sub rest =>
      filesHere exts (pyJoin dirpath n) sub
        ++ walkSubs exts (pyJoin dirpath n) sub
        ++ walkSubs exts dirpath rest

/-- `find_audio_files(root, exts)`: a plain file is returned alone when its
lowercased path ends with an allowed suffix; a directory is walked
recursively, collecting files whose lowercased name ends with an allowed
suffix, and the result is sorted. -/
def find_audio_files (root : String) (r : RootFS) (exts : List String) : List String :=
  match r with
  | .file => if endsWithAny (pyLower root) exts then [root] else []
  | .dir entries =>
      sortStrings (filesHere exts root entries ++ walkSubs exts root entries)

/-- Specification-side view of a directory tree: every file under it,
recursively, as a (full path, entry name) pair. -/
def allEntries (dirpath : String) : FSTree → List (String × String)
  | .nilE => []
  | .fileE n rest => (pyJoin dirpath n, n) :: allEntries dirpath rest
  | .dirE n sub rest => allEntries (pyJoin dirpath n) sub ++ allEntries dirpath rest

/-! ## Batch driver -/

/-- `[fmt.strip().lower() for fmt in s.split(",") if fmt.strip()]`. -/
def parseFormats (s : String) : List String :=
  ((pySplit s ',').filter fun f => pyTrim f ≠ "").map fun f => pyLower (pyTrim f)

/-- The set of supported output formats. -/
def supportedFormats : List String := ["txt", "json", "srt", "vtt"]

/-- The fixed audio-extension allow-list. -/
def audio_exts : List String :=
  [".mp3", ".wav", ".m4a", ".mp4", ".mpeg", ".mpga", ".webm", ".ogg", ".flac"]

/-- Parsed command-line arguments with their defaults. -/
structure Args where
  input : String := "."
  outDir : String := "transcripts"
  model : String := "medium"
  device : String := "auto"
  language : Option String := none
  formats : String := "txt,json,srt,vtt"
  failOnError : Bool := false

/-- The structured transcription result: the full text plus the opaque rest
of the dictionary, which only matters through its JSON serialization. -/
structure TWResult where
  text : String
deriving Repr, DecidableEq

/-- Observable events of a run, in order. -/
inductive Ev where
  /-- `ensure_dir(path)`: `os.makedirs(path, exist_ok=True)`. -/
  | mkdirCall (path : String)
  /-- A message printed to standard output. -/
  | outMsg (msg : String)
  /-- A diagnostic printed to the error stream by `eprint`. -/
  | errMsg (msg : String)
  /-- `transcribe_whisper` invoked on this file. -/
  | transcribeCall (path : String)
  /-- `save_text(path, content)` completed: the file now holds `content`. -/
  | fileWrite (path : String) (content : String)
  /-- `write_timecoded(result, file_path, out_folder, kind)` invoked. -/
  | writerInvoke (kind : String) (outFolder : String) (filePath : String)
deriving Repr, DecidableEq

/-- Oracles for the external capabilities: the filesystem shape at the
input path, the recognition model, write outcomes, and serialization. -/
structure Env where
  /-- What the filesystem holds at `args.input`. -/
  fsRoot : RootFS
  /-- `transcribe_whisper`: a result, or the exception message it raises. -/
  transcribe : String → Except String TWResult
  /-- `save_text` outcome per destination path: `none` = written,
  `some msg` = the exception raised. -/
  saveText : String → Option String
  /-- `write_timecoded` outcome per kind and source file. -/
  timecoded : String → String → Option String
  /-- `json.dumps(result, ensure_ascii=False, indent=2)`. -/
  jsonDumps : TWResult → String

/-- Control outcome of processing one file. -/
inductive Ctl where
  /-- Fall through to the next file. -/
  | next
  /-- Transcription failed with fail-fast off: record and continue. -/
  | failedNext
  /-- Transcription failed with fail-fast on: `return 1`. -/
  | abortExit1
  /-- An exception escaped `main` (uncaught write error). -/
  | crashed (msg : String)
deriving Repr, DecidableEq

/-- How the process ends: `sys.exit(main())` with a code, or an uncaught
exception traceback. -/
inductive Outcome where
  | exit (code : Nat)
  | crash (msg : String)
deriving Repr, DecidableEq

/-- One `save_text` call guarded by a format-membership test; an exception
is not caught and aborts with the message. -/
def saveStep (env : Env) (formats : List String) (fmt : String) (path : String)
    (content : String) : List Ev × Option String :=
  if formats.contains fmt then
    match env.saveText path with
    | none => ([Ev.fileWrite path content], none)
    | some e => ([], some e)
  else ([], none)

/-- One guarded `write_timecoded` call; its exception is caught and logged. -/
def timecodedStep (env : Env) (formats : List String) (kind : String) (label : String)
    (out_folder : String) (file_path : String) : List Ev :=
  if formats.contains kind then
    match env.timecoded kind file_path with
    | none => [Ev.writerInvoke kind out_folder file_path]
    | some e =>
        [Ev.writerInvoke kind out_folder file_path,
         Ev.errMsg ("Failed " ++ label ++ " writing for " ++ file_path ++ ": " ++ e)]
  else []

/-- The output-writing block of the per-file loop body (`txt`, `json`,
`srt`, `vtt`, in that order); returns the events and, when a `save_text`
exception escapes, its message. -/
def writeOutputs (env : Env) (formats : List String) (base : String)
    (out_folder : String) (file_path : String) (result : TWResult) :
    List Ev × Option String :=
  match saveStep env formats "txt" (pyJoin out_folder (base ++ ".txt")) (pyTrim result.text) with
  | (evs, some e) => (evs, some e)
  | (evs1, none) =>
    match saveStep env formats "json" (pyJoin out_folder (base ++ ".json"))
        (env.jsonDumps result) with
    | (evs2, some e) => (evs1 ++ evs2, some e)
    | (evs2, none) =>
        (evs1 ++ evs2
          ++ timecodedStep env formats "srt" "SRT" out_folder file_path
          ++ timecodedStep env formats "vtt" "VTT" out_folder file_path
          ++ [Ev.outMsg ("Saved transcripts to: " ++ out_folder)], none)

/-- The body of the per-file loop: resolve the output sub-directory, create
it, attempt transcription, then write the outputs. -/
def processFile (env : Env) (args : Args) (formats : List String)
    (file_path : String) : List Ev × Ctl :=
  let base := stem file_path
  let out_folder := pyJoin args.outDir base
  let pre := [Ev.mkdirCall out_folder,
              Ev.outMsg ("Transcribing: " ++ file_path),
              Ev.transcribeCall file_path]
  match env.transcribe file_path with
  | .error exc =>
      (pre ++ [Ev.errMsg ("Failed transcription for " ++ file_path ++ ": " ++ exc)],
       if args.failOnError then Ctl.abortExit1 else Ctl.failedNext)
  | .ok result =>
      match writeOutputs env formats base out_folder file_path result with
      | (evs, none) => (pre ++ evs, Ctl.next)
      | (evs, some e) => (pre ++ evs, Ctl.crashed e)

/-- The file loop with the accumulated `failures` list; at the end, the
final return value of `main`. -/
def runLoop (env : Env) (args : Args) (formats : List String) :
    List String → List String → List Ev × Outcome
  | [], failures =>
      ([], if failures ≠ [] ∧ args.failOnError then Outcome.exit 1 else Outcome.exit 0)
  | f :: rest, failures =>
      match (processFile env args formats f).2 with
      | Ctl.next =>
          let t := runLoop env args formats rest failures
          ((processFile env args formats f).1 ++ t.1, t.2)
      | Ctl.failedNext =>
          let t := runLoop env args formats rest (failures ++ [f])
          ((processFile env args formats f).1 ++ t.1, t.2)
      | Ctl.abortExit1 => ((processFile env args formats f).1, Outcome.exit 1)
      | Ctl.crashed e => ((processFile env args formats f).1, Outcome.crash e)

/-- `main`: validate the requested formats, locate the audio files, handle
the empty case, create the output root, and run the loop. -/
def mainRun (env : Env) (args : Args) : List Ev × Outcome :=
  let formats := parseFormats args.formats
  match formats.find? (fun f => ! supportedFormats.contains f) with
  | some f =>
      ([Ev.errMsg ("Unsupported format: " ++ f ++ ". Supported: [json, srt, txt, vtt]")],
       Outcome.exit 2)
  | none =>
    let files := find_audio_files args.input env.fsRoot audio_exts
    if files.isEmpty then
      ([Ev.errMsg "No audio files found to transcribe."], Outcome.exit 0)
    else
      let t := runLoop env args formats files []
      (Ev.mkdirCall args.outDir :: t.1, t.2)

/-- The successful `save_text` writes recorded in a trace, as
(path, content) pairs. -/
def writesOf (evs : List Ev) : List (String × String) :=
  evs.filterMap fun e =>
    match e with
    | .fileWrite p c => some (p, c)
    | _ => none

/-- `os.makedirs(path, exist_ok=True)` on an abstract directory set:
create the directory if absent, succeed silently if present. -/
def ensure_dir (dirs : List String) (path : String) : List String :=
  if dirs.contains path then dirs else dirs ++ [path]

/-- Replay the directory creations of a trace onto a directory set. -/
def applyMkdirs (evs : List Ev) (dirs : List String) : List String :=
  evs.foldl (fun ds e =>
    match e with
    | .mkdirCall p => ensure_dir ds p
    | _ => ds) dirs


/-! ## Concrete environments for witnesses -/

/-- A fixed transcription result used by the concrete environments. -/
def resW : TWResult := { text := "  hello world  " }

/-- Two audio files; every capability succeeds. -/
def envOkW : Env where
  fsRoot := RootFS.dir (FSTree.fileE "a.mp3" (FSTree.fileE "b.mp3" FSTree.nilE))
  transcribe := fun _ => Except.ok resW
  saveText := fun _ => none
  timecoded := fun _ _ => none
  jsonDumps := fun _ => "{}"

/-- As `envOkW`, but transcription of `./a.mp3` raises. -/
def envFailFirstW : Env :=
  { envOkW with
    transcribe := fun p =>
      if p = "./a.mp3" then Except.error "boom" else Except.ok resW }

/-- As `envOkW`, but the input directory is empty. -/
def envEmptyW : Env := { envOkW with fsRoot := RootFS.dir FSTree.nilE }

/-- As `envOkW`, but `save_text` raises on any `.txt` destination. -/
def envTxtCrashW : Env :=
  { envOkW with
    saveText := fun p => if pyEndsWith p ".txt" then some "disk full" else none }

/-- As `envOkW`, but `save_text` raises on any `.json` destination. -/
def envJsonCrashW : Env :=
  { envOkW with
    saveText := fun p => if pyEndsWith p ".json" then some "disk full" else none }

/-- As `envOkW`, but both caption writers (SRT and VTT) raise. -/
def envCapFailW : Env :=
  { envOkW with timecoded := fun _ _ => some "cue error" }

/-! ## File Locator lemmas -/

theorem mem_walk_iff (exts : List String) (p : String) :
    ∀ (t : FSTree) (d : String),
      (p ∈ filesHere exts d t ∨ p ∈ walkSubs exts d t) ↔
        ∃ q ∈ allEntries d t, p = q.1 ∧ endsWithAny (pyLower q.2) exts = true := by
  intro t
  induction t with
  | nilE => intro d; simp [filesHere, walkSubs, allEntries]
  | fileE n rest ih =>
    intro d
    rw [filesHere, walkSubs, allEntries]
    constructor
    · rintro (h | h)
      · rcases List.mem_append.mp h with h | h
        · refine ⟨(pyJoin d n, n), List.mem_cons_self _ _, ?_⟩
          split at h
          · next hc => simpa using ⟨List.mem_singleton.mp h, hc⟩
          · simp at h
        · rcases (ih d).mp (Or.inl h) with ⟨q, hq, hp, he⟩
          exact ⟨q, List.mem_cons_of_mem _ hq, hp, he⟩
      · rcases (ih d).mp (Or.inr h) with ⟨q, hq, hp, he⟩
        exact ⟨q, List.mem_cons_of_mem _ hq, hp, he⟩
    · rintro ⟨q, hq, hp, he⟩
      rcases List.mem_cons.mp hq with hq | hq
      · subst hq
        exact Or.inl (List.mem_append.mpr (Or.inl (by simp [he, hp])))
      · rcases (ih d).mpr ⟨q, hq, hp, he⟩ with h | h
        · exact Or.inl (List.mem_append.mpr (Or.inr h))
        · exact Or.inr h
  | dirE n sub rest ihs ihr =>
    intro d
    rw [filesHere, walkSubs, allEntries]
    constructor
    · rintro (h | h)
      · rcases (ihr d).mp (Or.inl h) with ⟨q, hq, hp, he⟩
        exact ⟨q, List.mem_append.mpr (Or.inr hq), hp, he⟩
      · rcases List.mem_append.mp h with h | h
        · rcases List.mem_append.mp h with h | h
          · rcases (ihs (pyJoin d n)).mp (Or.inl h) with ⟨q, hq, hp, he⟩
            exact ⟨q, List.mem_append.mpr (Or.inl hq), hp, he⟩
          · rcases (ihs (pyJoin d n)).mp (Or.inr h) with ⟨q, hq, hp, he⟩
            exact ⟨q, List.mem_append.mpr (Or.inl hq), hp, he⟩
        · rcases (ihr d).mp (Or.inr h) with ⟨q, hq, hp, he⟩
          exact ⟨q, List.mem_append.mpr (Or.inr hq), hp, he⟩
    · rintro ⟨q, hq, hp, he⟩
      rcases List.mem_append.mp hq with hq | hq
      · rcases (ihs (pyJoin d n)).mpr ⟨q, hq, hp, he⟩ with h | h
        · exact Or.inr (List.mem_append.mpr (Or.inl (List.mem_append.mpr (Or.inl h))))
        · exact Or.inr (List.mem_append.mpr (Or.inl (List.mem_append.mpr (Or.inr h))))
      · rcases (ihr d).mpr ⟨q, hq, hp, he⟩ with h | h
        · exact Or.inl h
        · exact Or.inr (List.mem_append.mpr (Or.inr h))

theorem charListLe_iff (as : List Char) : ∀ bs, charListLe as bs = true ↔ ¬ bs < as := by
  induction as with
  | nil =>
    intro bs
    cases bs with
    | nil => exact iff_of_true rfl (List.Lex.not_nil_right _ _)
    | cons b bs => exact iff_of_true rfl (List.Lex.not_nil_right _ _)
  | cons a as ih =>
    intro bs
    cases bs with
    | nil =>
      rw [charListLe]
      exact iff_of_false (by simp) fun h => h (List.nil_lt_cons a as)
    | cons b bs =>
      rw [charListLe]
      by_cases hab : a < b
      · rw [if_pos hab]
        refine iff_of_true rfl fun h => ?_
        cases h with
        | cons h1 => exact absurd hab (lt_irrefl a)
        | rel h1 => exact (lt_asymm hab) h1
      · rw [if_neg hab]
        by_cases hba : b < a
        · rw [if_pos hba]
          exact iff_of_false (by simp) fun h => h (List.Lex.rel hba)
        · rw [if_neg hba]
          have heq : a = b := le_antisymm (le_of_not_lt hba) (le_of_not_lt hab)
          subst heq
          rw [ih bs]
          constructor
          · intro h hlt
            cases hlt with
            | cons h1 => exact h h1
            | rel h1 => exact hba h1
          · intro h hlt
            exact h (List.Lex.cons hlt)

theorem strLe_iff (a b : String) : strLe a b = true ↔ a ≤ b := by
  rw [strLe, charListLe_iff]
  constructor
  · intro h
    exact String.le_iff_toList_le.mpr (not_lt.mp h)
  · intro h
    exact not_lt.mpr (String.le_iff_toList_le.mp h)

theorem mem_insertSorted {x a : String} {l : List String} :
    a ∈ insertSorted x l ↔ a = x ∨ a ∈ l := by
  induction l with
  | nil => simp [insertSorted]
  | cons y ys ih =>
    rw [insertSorted]
    split
    · simp [List.mem_cons]
    · simp only [List.mem_cons, ih]
      tauto

theorem sorted_insertSorted {x : String} {l : List String}
    (h : l.Pairwise (· ≤ ·)) : (insertSorted x l).Pairwise (· ≤ ·) := by
  induction l with
  | nil => simp [insertSorted]
  | cons y ys ih =>
    rw [insertSorted]
    rcases List.pairwise_cons.mp h with ⟨hy, hys⟩
    split
    · next hle =>
      refine List.pairwise_cons.mpr ⟨?_, h⟩
      intro b hb
      rcases List.mem_cons.mp hb with hb | hb
      · exact hb ▸ (strLe_iff x y).mp hle
      · exact le_trans ((strLe_iff x y).mp hle) (hy b hb)
    · next hgt =>
      refine List.pairwise_cons.mpr ⟨?_, ih hys⟩
      intro b hb
      rcases mem_insertSorted.mp hb with hb | hb
      · rw [hb]
        exact le_of_not_le fun hxy => hgt ((strLe_iff x y).mpr hxy)
      · exact hy b hb

theorem mem_sortStrings {a : String} {l : List String} :
    a ∈ sortStrings l ↔ a ∈ l := by
  induction l with
  | nil => simp [sortStrings]
  | cons y ys ih => rw [sortStrings]; simp [mem_insertSorted, ih]

theorem sorted_sortStrings (l : List String) :
    (sortStrings l).Pairwise (· ≤ ·) := by
  induction l with
  | nil => simp [sortStrings]
  | cons y ys ih => rw [sortStrings]; exact sorted_insertSorted ih

/-- C4: for every root path and extension allow-list, the File Locator on a
directory returns a list sorted in lexicographic path order containing
exactly the files under it (recursively) whose lowercase name ends with a
member of the allow-list; on a plain file it returns that one path exactly
when the lowercased path ends with an allowed suffix, and the empty list
otherwise. -/
theorem find_audio_files_spec (root : String) (exts : List String) :
    (∀ entries : FSTree,
      (find_audio_files root (.dir entries) exts).Sorted (· ≤ ·) ∧
      (∀ p, p ∈ find_audio_files root (.dir entries) exts ↔
        ∃ q ∈ allEntries root entries, p = q.1 ∧ endsWithAny (pyLower q.2) exts = true)) ∧
    (endsWithAny (pyLower root) exts = true → find_audio_files root .file exts = [root]) ∧
    (endsWithAny (pyLower root) exts = false → find_audio_files root .file exts = []) := by
  refine ⟨fun entries => ⟨?_, fun p => ?_⟩, fun h => by simp [find_audio_files, h],
    fun h => by simp [find_audio_files, h]⟩
  · exact sorted_sortStrings _
  · rw [show find_audio_files root (.dir entries) exts =
      sortStrings (filesHere exts root entries ++ walkSubs exts root entries) from rfl,
      mem_sortStrings, List.mem_append]
    exact mem_walk_iff exts p entries root

/-! ## Driver lemmas -/

theorem saveStep_of_saveOk {env : Env} (hw : ∀ p, env.saveText p = none)
    (formats : List String) (fmt path content : String) :
    saveStep env formats fmt path content =
      ((if formats.contains fmt then [Ev.fileWrite path content] else []), none) := by
  simp only [saveStep, hw]
  split <;> rfl

theorem writeOutputs_of_saveOk {env : Env} (hw : ∀ p, env.saveText p = none)
    (formats : List String) (base out_folder file_path : String) (r : TWResult) :
    writeOutputs env formats base out_folder file_path r =
      ((if formats.contains "txt"
          then [Ev.fileWrite (pyJoin out_folder (base ++ ".txt")) (pyTrim r.text)] else [])
        ++ (if formats.contains "json"
          then [Ev.fileWrite (pyJoin out_folder (base ++ ".json")) (env.jsonDumps r)] else [])
        ++ timecodedStep env formats "srt" "SRT" out_folder file_path
        ++ timecodedStep env formats "vtt" "VTT" out_folder file_path
        ++ [Ev.outMsg ("Saved transcripts to: " ++ out_folder)], none) := by
  rw [writeOutputs, saveStep_of_saveOk hw, saveStep_of_saveOk hw]

theorem processFile_of_error {env : Env} {args : Args} {formats : List String}
    {f e : String} (he : env.transcribe f = Except.error e) :
    processFile env args formats f =
      ([Ev.mkdirCall (pyJoin args.outDir (stem f)),
        Ev.outMsg ("Transcribing: " ++ f),
        Ev.transcribeCall f,
        Ev.errMsg ("Failed transcription for " ++ f ++ ": " ++ e)],
       if args.failOnError then Ctl.abortExit1 else Ctl.failedNext) := by
  simp [processFile, he]

theorem processFile_of_ok {env : Env} {args : Args} {formats : List String}
    {f : String} {r : TWResult} (hw : ∀ p, env.saveText p = none)
    (hr : env.transcribe f = Except.ok r) :
    processFile env args formats f =
      ([Ev.mkdirCall (pyJoin args.outDir (stem f)),
        Ev.outMsg ("Transcribing: " ++ f),
        Ev.transcribeCall f]
        ++ (writeOutputs env formats (stem f) (pyJoin args.outDir (stem f)) f r).1,
       Ctl.next) := by
  rw [processFile, hr]
  rcases hwo : writeOutputs env formats (stem f) (pyJoin args.outDir (stem f)) f r
    with ⟨evs, o⟩
  have : o = none := by
    have := writeOutputs_of_saveOk hw formats (stem f) (pyJoin args.outDir (stem f)) f r
    rw [hwo] at this
    exact (Prod.mk.injEq _ _ _ _ ▸ this).2
  subst this
  simp [hwo]

theorem mem_saveStep {env : Env} {formats : List String} {fmt path content : String}
    {e : Ev} (h : e ∈ (saveStep env formats fmt path content).1) :
    e = Ev.fileWrite path content := by
  rw [saveStep] at h
  split at h
  · split at h <;> simp_all
  · simp_all

theorem mem_timecodedStep {env : Env} {formats : List String}
    {kind label out_folder file_path : String} {e : Ev}
    (h : e ∈ timecodedStep env formats kind label out_folder file_path) :
    e = Ev.writerInvoke kind out_folder file_path ∨ ∃ m, e = Ev.errMsg m := by
  rw [timecodedStep] at h
  split at h
  · split at h
    · simp only [List.mem_singleton] at h
      exact Or.inl h
    · simp only [List.mem_cons, List.mem_singleton, List.not_mem_nil, or_false] at h
      rcases h with h | h
      · exact Or.inl h
      · exact Or.inr ⟨_, h⟩
  · simp at h

theorem transcribe_not_mem_writeOutputs {env : Env} {formats : List String}
    {base out_folder file_path g : String} {r : TWResult} :
    Ev.transcribeCall g ∉ (writeOutputs env formats base out_folder file_path r).1 := by
  intro h
  rw [writeOutputs] at h
  rcases h1 : saveStep env formats "txt" (pyJoin out_folder (base ++ ".txt")) (pyTrim r.text)
    with ⟨evs1, o1⟩
  rcases h2 : saveStep env formats "json" (pyJoin out_folder (base ++ ".json"))
    (env.jsonDumps r) with ⟨evs2, o2⟩
  have he1 : ∀ x ∈ evs1, x = Ev.fileWrite (pyJoin out_folder (base ++ ".txt")) (pyTrim r.text) :=
    fun x hx => mem_saveStep (by rw [h1]; exact hx)
  have he2 : ∀ x ∈ evs2,
      x = Ev.fileWrite (pyJoin out_folder (base ++ ".json")) (env.jsonDumps r) :=
    fun x hx => mem_saveStep (by rw [h2]; exact hx)
  rw [h1] at h
  cases o1 with
  | some e =>
      simp only at h
      exact absurd (he1 _ h) (by simp)
  | none =>
    rw [h2] at h
    cases o2 with
    | some e =>
      simp only [List.mem_append] at h
      rcases h with h | h
      · exact absurd (he1 _ h) (by simp)
      · exact absurd (he2 _ h) (by simp)
    | none =>
      simp only [List.mem_append, List.mem_singleton] at h
      rcases h with ((((h | h) | h) | h) | h)
      · exact absurd (he1 _ h) (by simp)
      · exact absurd (he2 _ h) (by simp)
      · rcases mem_timecodedStep h with h | ⟨m, h⟩ <;> simp at h
      · rcases mem_timecodedStep h with h | ⟨m, h⟩ <;> simp at h
      · simp at h

theorem mem_transcribe_processFile {env : Env} {args : Args} {formats : List String}
    {f g : String} (h : Ev.transcribeCall g ∈ (processFile env args formats f).1) :
    g = f := by
  rw [processFile] at h
  split at h
  · simp only [List.mem_append, List.mem_cons, List.mem_singleton, List.not_mem_nil,
      or_false] at h
    rcases h with (h | h | h) | h <;> simp_all
  · rename TWResult => r
    split at h
    · rename_i evs heq
      simp only [List.mem_append, List.mem_cons, List.mem_singleton, List.not_mem_nil,
        or_false] at h
      rcases h with (h | h | h) | h
      · simp_all
      · simp_all
      · simp_all
      · exact absurd (show Ev.transcribeCall g ∈
          (writeOutputs env formats (stem f) (pyJoin args.outDir (stem f)) f r).1 by
            rw [heq]; exact h) transcribe_not_mem_writeOutputs
    · rename_i evs e heq
      simp only [List.mem_append, List.mem_cons, List.mem_singleton, List.not_mem_nil,
        or_false] at h
      rcases h with (h | h | h) | h
      · simp_all
      · simp_all
      · simp_all
      · exact absurd (show Ev.transcribeCall g ∈
          (writeOutputs env formats (stem f) (pyJoin args.outDir (stem f)) f r).1 by
            rw [heq]; exact h) transcribe_not_mem_writeOutputs

theorem runLoop_nil (env : Env) (args : Args) (formats : List String)
    (failures : List String) :
    runLoop env args formats [] failures =
      ([], if failures ≠ [] ∧ args.failOnError then Outcome.exit 1 else Outcome.exit 0) :=
  rfl

theorem runLoop_cons_next {env : Env} {args : Args} {formats : List String}
    {f : String} (rest failures : List String)
    (h : (processFile env args formats f).2 = Ctl.next) :
    runLoop env args formats (f :: rest) failures =
      ((processFile env args formats f).1 ++ (runLoop env args formats rest failures).1,
       (runLoop env args formats rest failures).2) := by
  simp [runLoop, h]

theorem runLoop_cons_failed {env : Env} {args : Args} {formats : List String}
    {f : String} (rest failures : List String)
    (h : (processFile env args formats f).2 = Ctl.failedNext) :
    runLoop env args formats (f :: rest) failures =
      ((processFile env args formats f).1
         ++ (runLoop env args formats rest (failures ++ [f])).1,
       (runLoop env args formats rest (failures ++ [f])).2) := by
  simp [runLoop, h]

theorem runLoop_cons_abort {env : Env} {args : Args} {formats : List String}
    {f : String} (rest failures : List String)
    (h : (processFile env args formats f).2 = Ctl.abortExit1) :
    runLoop env args formats (f :: rest) failures =
      ((processFile env args formats f).1, Outcome.exit 1) := by
  simp [runLoop, h]

theorem runLoop_cons_crashed {env : Env} {args : Args} {formats : List String}
    {f e : String} (rest failures : List String)
    (h : (processFile env args formats f).2 = Ctl.crashed e) :
    runLoop env args formats (f :: rest) failures =
      ((processFile env args formats f).1, Outcome.crash e) := by
  simp [runLoop, h]

theorem runLoop_exit0 {env : Env} {args : Args} {formats : List String}
    (hw : ∀ p, env.saveText p = none) (hoff : args.failOnError = false) :
    ∀ files failures : List String,
      (runLoop env args formats files failures).2 = Outcome.exit 0 ∧
      ∀ f ∈ files, Ev.transcribeCall f ∈ (runLoop env args formats files failures).1 := by
  intro files
  induction files with
  | nil => intro failures; simp [runLoop_nil, hoff]
  | cons f rest ih =>
    intro failures
    cases htr : env.transcribe f with
    | ok r =>
        have hpf := @processFile_of_ok env args formats f _ hw htr
        rw [runLoop_cons_next rest failures (by rw [hpf])]
        refine ⟨(ih failures).1, fun g hg => ?_⟩
        rcases List.mem_cons.mp hg with hg | hg
        · subst hg; simp [hpf]
        · exact List.mem_append.mpr (Or.inr ((ih failures).2 g hg))
    | error e =>
        have hpf := @processFile_of_error env args formats f _ htr
        rw [runLoop_cons_failed rest failures (by rw [hpf]; simp [hoff])]
        refine ⟨(ih (failures ++ [f])).1, fun g hg => ?_⟩
        rcases List.mem_cons.mp hg with hg | hg
        · subst hg; simp [hpf]
        · exact List.mem_append.mpr (Or.inr ((ih (failures ++ [f])).2 g hg))

theorem runLoop_nonzero {env : Env} {args : Args} {formats : List String}
    (hw : ∀ p, env.saveText p = none) :
    ∀ (files failures : List String) (c : Nat),
      (runLoop env args formats files failures).2 = Outcome.exit c → c ≠ 0 →
      args.failOnError = true ∧
        (failures ≠ [] ∨ ∃ f ∈ files, ∃ e, env.transcribe f = Except.error e) := by
  intro files
  induction files with
  | nil =>
    intro failures c hc hne
    rw [runLoop_nil] at hc
    split at hc
    · next hcond => exact ⟨hcond.2, Or.inl hcond.1⟩
    · simp only at hc
      cases hc
      exact absurd rfl hne
  | cons f rest ih =>
    intro failures c hc hne
    cases htr : env.transcribe f with
    | ok r =>
        have hpf := @processFile_of_ok env args formats f _ hw htr
        rw [runLoop_cons_next rest failures (by rw [hpf])] at hc
        rcases ih failures c hc hne with ⟨hfo, hrest⟩
        refine ⟨hfo, hrest.imp id fun ⟨g, hg, hgE⟩ => ⟨g, List.mem_cons_of_mem f hg, hgE⟩⟩
    | error e =>
        have hpf := @processFile_of_error env args formats f _ htr
        cases hfo : args.failOnError with
        | true =>
            exact ⟨rfl, Or.inr ⟨f, List.mem_cons_self f rest, e, htr⟩⟩
        | false =>
            rw [runLoop_cons_failed rest failures (by rw [hpf]; simp [hfo])] at hc
            rcases ih (failures ++ [f]) c hc hne with ⟨hfo2, _⟩
            exact absurd hfo2 (by simp [hfo])

theorem runLoop_ok_front {env : Env} {args : Args} {formats : List String}
    (hw : ∀ p, env.saveText p = none) :
    ∀ (pre rest failures : List String),
      (∀ f ∈ pre, ∃ r, env.transcribe f = Except.ok r) →
      runLoop env args formats (pre ++ rest) failures =
        (pre.flatMap (fun f => (processFile env args formats f).1)
           ++ (runLoop env args formats rest failures).1,
         (runLoop env args formats rest failures).2) := by
  intro pre
  induction pre with
  | nil => intro rest failures _; simp
  | cons f pre' ih =>
    intro rest failures hok
    rcases hok f (List.mem_cons_self f pre') with ⟨r, hr⟩
    rw [List.cons_append,
      runLoop_cons_next (pre' ++ rest) failures
        (by rw [@processFile_of_ok env args formats f r hw hr]),
      ih rest failures (fun g hg => hok g (List.mem_cons_of_mem f hg))]
    simp [List.flatMap_cons, List.append_assoc]

theorem mainRun_valid {env : Env} {args : Args}
    (hvalid : ∀ f ∈ parseFormats args.formats, supportedFormats.contains f = true) :
    mainRun env args =
      (if (find_audio_files args.input env.fsRoot audio_exts).isEmpty then
        ([Ev.errMsg "No audio files found to transcribe."], Outcome.exit 0)
      else
        (Ev.mkdirCall args.outDir ::
           (runLoop env args (parseFormats args.formats)
             (find_audio_files args.input env.fsRoot audio_exts) []).1,
         (runLoop env args (parseFormats args.formats)
           (find_audio_files args.input env.fsRoot audio_exts) []).2)) := by
  have hf : (parseFormats args.formats).find? (fun f => ! supportedFormats.contains f)
      = none :=
    List.find?_eq_none.mpr fun x hx => by simpa using hvalid x hx
  rw [mainRun, hf]

/-! ## Further helper lemmas -/

theorem processFile_trace_shape (env : Env) (args : Args) (formats : List String)
    (f : String) :
    ∃ tail, (processFile env args formats f).1 =
      Ev.mkdirCall (pyJoin args.outDir (stem f))
        :: Ev.outMsg ("Transcribing: " ++ f)
        :: Ev.transcribeCall f :: tail := by
  rw [processFile]
  cases env.transcribe f with
  | error e =>
      exact ⟨[Ev.errMsg ("Failed transcription for " ++ f ++ ": " ++ e)], by simp⟩
  | ok r =>
    rcases hwo : writeOutputs env formats (stem f) (pyJoin args.outDir (stem f)) f r
      with ⟨evs, o⟩
    cases o <;> exact ⟨evs, by simp [hwo]⟩

theorem mem_ensure_dir_self (dirs : List String) (p : String) :
    p ∈ ensure_dir dirs p := by
  rw [ensure_dir]
  split
  · next h => exact List.elem_iff.mp h
  · simp

theorem mem_ensure_dir_of_mem {dirs : List String} {q : String} (p : String)
    (h : q ∈ dirs) : q ∈ ensure_dir dirs p := by
  rw [ensure_dir]
  split
  · exact h
  · exact List.mem_append.mpr (Or.inl h)

theorem ensure_dir_idem (dirs : List String) (p : String) :
    ensure_dir (ensure_dir dirs p) p = ensure_dir dirs p := by
  rw [ensure_dir, if_pos (List.elem_iff.mpr (mem_ensure_dir_self dirs p))]

theorem mem_applyMkdirs_of_mem {q : String} (evs : List Ev) (dirs : List String)
    (h : q ∈ dirs) : q ∈ applyMkdirs evs dirs := by
  induction evs generalizing dirs with
  | nil => exact h
  | cons e rest ih =>
    cases e with
    | mkdirCall p => exact ih _ (mem_ensure_dir_of_mem p h)
    | outMsg m => exact ih _ h
    | errMsg m => exact ih _ h
    | transcribeCall p => exact ih _ h
    | fileWrite p c => exact ih _ h
    | writerInvoke k d f => exact ih _ h

theorem filter_map_eq_filterMap {α β : Type} (p : α → Bool) (g : α → β) (l : List α) :
    (l.filter p).map g = l.filterMap fun x => if p x then some (g x) else none := by
  induction l with
  | nil => rfl
  | cons a t ih => by_cases h : p a <;> simp [h, ih]

/-! ## Claim theorems -/

/-- C6: when the File Locator discovers zero audio files, the Batch Driver
exits with status 0 and the recognition capability is never invoked. -/
theorem empty_discovery_exits_zero (env : Env) (args : Args)
    (hvalid : ∀ f ∈ parseFormats args.formats, supportedFormats.contains f = true)
    (hempty : find_audio_files args.input env.fsRoot audio_exts = []) :
    (mainRun env args).2 = Outcome.exit 0 ∧
    ∀ p, Ev.transcribeCall p ∉ (mainRun env args).1 := by
  rw [mainRun_valid hvalid, hempty]
  refine ⟨rfl, fun p hp => ?_⟩
  simp at hp

/-- C6 witness: on an empty directory the run exits 0 and never calls the
recognizer. -/
theorem empty_discovery_exits_zero_witness :
    (mainRun envEmptyW {}).2 = Outcome.exit 0 ∧
    Ev.transcribeCall "a.mp3" ∉ (mainRun envEmptyW {}).1 := by
  have h := empty_discovery_exits_zero envEmptyW {} (by decide) (by decide)
  exact ⟨h.1, h.2 "a.mp3"⟩

/-- C10: when the File Locator discovers zero audio files, the trace is one
diagnostic message: no directory is created and no file is written. -/
theorem empty_discovery_no_writes (env : Env) (args : Args)
    (hvalid : ∀ f ∈ parseFormats args.formats, supportedFormats.contains f = true)
    (hempty : find_audio_files args.input env.fsRoot audio_exts = []) :
    (mainRun env args).1 = [Ev.errMsg "No audio files found to transcribe."] ∧
    (∀ p, Ev.mkdirCall p ∉ (mainRun env args).1) ∧
    (∀ p c, Ev.fileWrite p c ∉ (mainRun env args).1) ∧
    (∀ k d f, Ev.writerInvoke k d f ∉ (mainRun env args).1) := by
  rw [mainRun_valid hvalid, hempty]
  refine ⟨rfl, fun p hp => ?_, fun p c hp => ?_, fun k d f hp => ?_⟩ <;> simp at hp

/-- C10 witness: on an empty directory no directory creation and no write
appears in the trace. -/
theorem empty_discovery_no_writes_witness :
    (mainRun envEmptyW {}).1 = [Ev.errMsg "No audio files found to transcribe."] ∧
    Ev.mkdirCall "transcripts" ∉ (mainRun envEmptyW {}).1 := by
  have h := empty_discovery_no_writes envEmptyW {} (by decide) (by decide)
  exact ⟨h.1, h.2.1 "transcripts"⟩

/-- C3: a requested format list containing a name outside the supported set
makes the process exit with code 2 before any file is discovered or
processed, whatever the filesystem holds. -/
theorem invalid_format_exits_two (env : Env) (args : Args)
    (hbad : ∃ f ∈ parseFormats args.formats, ¬ supportedFormats.contains f = true) :
    (mainRun env args).2 = Outcome.exit 2 ∧
    (∀ p, Ev.transcribeCall p ∉ (mainRun env args).1) ∧
    (∀ p, Ev.mkdirCall p ∉ (mainRun env args).1) ∧
    (∀ p c, Ev.fileWrite p c ∉ (mainRun env args).1) ∧
    (∀ k d f, Ev.writerInvoke k d f ∉ (mainRun env args).1) := by
  have hne : (parseFormats args.formats).find? (fun f => ! supportedFormats.contains f)
      ≠ none := by
    intro h
    rcases hbad with ⟨f, hf, hnot⟩
    exact hnot (by simpa using List.find?_eq_none.mp h f hf)
  rcases hfind : (parseFormats args.formats).find? (fun f => ! supportedFormats.contains f)
    with _ | f
  · exact absurd hfind hne
  · have hm : mainRun env args =
        ([Ev.errMsg ("Unsupported format: " ++ f ++ ". Supported: [json, srt, txt, vtt]")],
         Outcome.exit 2) := by
      simp only [mainRun, hfind]
    rw [hm]
    exact ⟨rfl, fun p hp => by simp at hp, fun p hp => by simp at hp,
      fun p c hp => by simp at hp, fun k d f hf => by simp at hf⟩

/-- C3 witness: `--formats txt,bogus` exits 2 without touching two valid
audio files. -/
theorem invalid_format_exits_two_witness :
    (mainRun envOkW { formats := "txt,bogus" }).2 = Outcome.exit 2 ∧
    Ev.transcribeCall "./a.mp3" ∉ (mainRun envOkW { formats := "txt,bogus" }).1 := by
  have h := invalid_format_exits_two envOkW { formats := "txt,bogus" }
    ⟨"bogus", by decide, by decide⟩
  exact ⟨h.1, h.2.1 "./a.mp3"⟩

/-- C8: format parsing trims and lowercases each comma-separated entry and
drops empty entries; the validation gate passes exactly when every
non-empty trimmed entry lowercases to a supported format name. -/
theorem format_parsing_normalization (s : String) :
    parseFormats s =
      ((pySplit s ',').filterMap fun e =>
        if pyTrim e = "" then none else some (pyLower (pyTrim e))) ∧
    (((parseFormats s).find? (fun f => ! supportedFormats.contains f) = none) ↔
      ∀ e ∈ pySplit s ',', pyTrim e ≠ "" →
        supportedFormats.contains (pyLower (pyTrim e)) = true) := by
  constructor
  · rw [parseFormats, filter_map_eq_filterMap]
    exact List.filterMap_congr fun e _ => by
      by_cases h : pyTrim e = "" <;> simp [h]
  · rw [List.find?_eq_none]
    constructor
    · intro h e he hne
      have hm : pyLower (pyTrim e) ∈ parseFormats s := by
        rw [parseFormats]
        exact List.mem_map.mpr ⟨e, List.mem_filter.mpr ⟨he, by simpa using hne⟩, rfl⟩
      simpa using h _ hm
    · intro h f hf
      rw [parseFormats] at hf
      rcases List.mem_map.mp hf with ⟨e, he, rfl⟩
      have := List.mem_filter.mp he
      simpa using h e this.1 (by simpa using this.2)

/-- C1: with fail-fast off the Batch Driver attempts every discovered file
and exits 0 regardless of how many fail transcription; in general (valid
formats, no uncaught write error) a non-zero exit happens only when
fail-fast is configured and at least one file failed transcription. -/
theorem batch_attempts_all_and_exit_status (env : Env) (args : Args)
    (hw : ∀ p, env.saveText p = none)
    (hvalid : ∀ f ∈ parseFormats args.formats, supportedFormats.contains f = true) :
    (args.failOnError = false →
      (mainRun env args).2 = Outcome.exit 0 ∧
      ∀ f ∈ find_audio_files args.input env.fsRoot audio_exts,
        Ev.transcribeCall f ∈ (mainRun env args).1) ∧
    (∀ c, (mainRun env args).2 = Outcome.exit c → c ≠ 0 →
      args.failOnError = true ∧
      ∃ f ∈ find_audio_files args.input env.fsRoot audio_exts,
        ∃ e, env.transcribe f = Except.error e) := by
  rw [mainRun_valid hvalid]
  by_cases hE : (find_audio_files args.input env.fsRoot audio_exts).isEmpty
  · rw [if_pos hE]
    constructor
    · intro hoff
      refine ⟨rfl, fun f hf => ?_⟩
      rw [List.isEmpty_iff.mp hE] at hf
      cases hf
    · intro c hc hne
      simp only at hc
      cases hc
      exact absurd rfl hne
  · rw [if_neg hE]
    constructor
    · intro hoff
      exact ⟨(runLoop_exit0 hw hoff _ []).1,
        fun f hf => List.mem_cons_of_mem _ ((runLoop_exit0 hw hoff _ []).2 f hf)⟩
    · intro c hc hne
      rcases runLoop_nonzero hw _ [] c hc hne with ⟨hfo, h⟩
      rcases h with h | h
      · exact absurd rfl h
      · exact ⟨hfo, h⟩

/-- C1 witness: two files, the first fails transcription, fail-fast off:
both files are attempted and the exit status is 0. -/
theorem batch_attempts_all_and_exit_status_witness :
    (mainRun envFailFirstW {}).2 = Outcome.exit 0 ∧
    Ev.transcribeCall "./a.mp3" ∈ (mainRun envFailFirstW {}).1 ∧
    Ev.transcribeCall "./b.mp3" ∈ (mainRun envFailFirstW {}).1 := by
  have h := (batch_attempts_all_and_exit_status envFailFirstW {}
    (fun _ => rfl) (by decide)).1 rfl
  exact ⟨h.1, h.2 "./a.mp3" (by decide), h.2 "./b.mp3" (by decide)⟩

/-- C5: with fail-fast on and a first failing file, the driver processes the
files before it, attempts the failing file, exits 1, and never attempts any
file after it. -/
theorem fail_fast_stops_at_first_failure (env : Env) (args : Args)
    (pre post : List String) (f0 : String)
    (hw : ∀ p, env.saveText p = none)
    (hvalid : ∀ f ∈ parseFormats args.formats, supportedFormats.contains f = true)
    (hOn : args.failOnError = true)
    (hfiles : find_audio_files args.input env.fsRoot audio_exts = pre ++ f0 :: post)
    (hpre : ∀ f ∈ pre, ∃ r, env.transcribe f = Except.ok r)
    (hfail : ∃ e, env.transcribe f0 = Except.error e)
    (hnd : (pre ++ f0 :: post).Nodup) :
    (mainRun env args).2 = Outcome.exit 1 ∧
    Ev.transcribeCall f0 ∈ (mainRun env args).1 ∧
    ∀ g ∈ post, Ev.transcribeCall g ∉ (mainRun env args).1 := by
  rcases hfail with ⟨e, he⟩
  have hpf := @processFile_of_error env args (parseFormats args.formats) f0 e he
  rw [mainRun_valid hvalid, hfiles, if_neg (by simp)]
  rw [runLoop_ok_front hw pre (f0 :: post) [] hpre,
    runLoop_cons_abort post [] (by rw [hpf]; simp [hOn])]
  rcases List.nodup_append.mp hnd with ⟨_, hnd2, hdisj⟩
  have hf0post : f0 ∉ post := (List.nodup_cons.mp hnd2).1
  refine ⟨rfl, ?_, ?_⟩
  · simp [hpf]
  · intro g hg hmem
    simp only [List.mem_cons, List.mem_append] at hmem
    rcases hmem with hmem | hmem | hmem
    · cases hmem
    · rcases List.mem_flatMap.mp hmem with ⟨a, ha, hmem2⟩
      have : g = a := mem_transcribe_processFile hmem2
      subst this
      exact hdisj ha (List.mem_cons_of_mem f0 hg)
    · have : g = f0 := mem_transcribe_processFile hmem
      subst this
      exact hf0post hg

/-- C5 witness: first of two files fails under fail-fast: exit 1, the
failing file was attempted, the second file never was. -/
theorem fail_fast_stops_at_first_failure_witness :
    (mainRun envFailFirstW { failOnError := true }).2 = Outcome.exit 1 ∧
    Ev.transcribeCall "./a.mp3" ∈ (mainRun envFailFirstW { failOnError := true }).1 ∧
    Ev.transcribeCall "./b.mp3" ∉ (mainRun envFailFirstW { failOnError := true }).1 := by
  have h := fail_fast_stops_at_first_failure envFailFirstW { failOnError := true }
    [] ["./b.mp3"] "./a.mp3" (fun _ => rfl) (by decide) rfl (by decide)
    (fun f hf => absurd hf (List.not_mem_nil f)) ⟨"boom", rfl⟩ (by decide)
  exact ⟨h.1, h.2.1, h.2.2 "./b.mp3" (List.mem_singleton.mpr rfl)⟩

/-- C7: a successful transcription with exactly the `txt` and `json`
formats requested writes exactly the two files `<base>.txt` and
`<base>.json` in the per-file output directory, the `.txt` content being
the whitespace-trimmed full transcript, and the file completes normally. -/
theorem txt_json_outputs_exact (env : Env) (args : Args) (f : String) (r : TWResult)
    (hw : ∀ p, env.saveText p = none)
    (hr : env.transcribe f = Except.ok r) :
    writesOf (processFile env args ["txt", "json"] f).1 =
      [(pyJoin (pyJoin args.outDir (stem f)) (stem f ++ ".txt"), pyTrim r.text),
       (pyJoin (pyJoin args.outDir (stem f)) (stem f ++ ".json"), env.jsonDumps r)] ∧
    (processFile env args ["txt", "json"] f).2 = Ctl.next := by
  have hpf := @processFile_of_ok env args ["txt", "json"] f r hw hr
  rw [hpf, writeOutputs_of_saveOk hw]
  constructor
  · simp [writesOf, timecodedStep]
  · rfl

/-- C7 witness: concrete run writing exactly `a.txt` and `a.json`, the text
file holding the trimmed transcript. -/
theorem txt_json_outputs_exact_witness :
    writesOf (processFile envOkW {} ["txt", "json"] "a.mp3").1 =
      [("transcripts/a/a.txt", "hello world"), ("transcripts/a/a.json", "{}")] ∧
    (processFile envOkW {} ["txt", "json"] "a.mp3").2 = Ctl.next := by
  have h := txt_json_outputs_exact envOkW {} "a.mp3" resW (fun _ => rfl) rfl
  exact ⟨h.1.trans (by decide), h.2⟩

/-- C9: the per-file output directory is created (idempotently) before
transcription of the file is attempted, so even a failing file leaves its
directory; `ensure_dir` never fails on an existing directory and repeated
creation is a no-op. -/
theorem outdir_created_before_transcription (env : Env) (args : Args)
    (formats : List String) (f : String) :
    ((processFile env args formats f).1.take 3 =
      [Ev.mkdirCall (pyJoin args.outDir (stem f)),
       Ev.outMsg ("Transcribing: " ++ f),
       Ev.transcribeCall f]) ∧
    (∀ dirs, pyJoin args.outDir (stem f)
      ∈ applyMkdirs (processFile env args formats f).1 dirs) ∧
    (∀ dirs p, ensure_dir (ensure_dir dirs p) p = ensure_dir dirs p) ∧
    (∀ dirs p, p ∈ ensure_dir dirs p) := by
  rcases processFile_trace_shape env args formats f with ⟨tail, htr⟩
  refine ⟨by simp [htr], fun dirs => ?_, ensure_dir_idem, mem_ensure_dir_self⟩
  rw [htr]
  exact mem_applyMkdirs_of_mem tail _ (mem_ensure_dir_self dirs _)

/-- C2 counterexample: with formats `txt,json` requested, a write error
while rendering the `txt` format is an uncaught exception: the sibling
`json` format is never attempted (no file is written at all), the run
crashes, and a subsequent file is never processed. -/
theorem txt_write_error_not_isolated :
    (processFile envTxtCrashW {} ["txt", "json"] "a.mp3").2 = Ctl.crashed "disk full" ∧
    writesOf (processFile envTxtCrashW {} ["txt", "json"] "a.mp3").1 = [] ∧
    (runLoop envTxtCrashW {} ["txt", "json"] ["a.mp3", "b.mp3"] []).2
      = Outcome.crash "disk full" ∧
    Ev.transcribeCall "b.mp3"
      ∉ (runLoop envTxtCrashW {} ["txt", "json"] ["a.mp3", "b.mp3"] []).1 := by
  decide

/-- C2 (amended): whichever caption format's writer (`srt` or `vtt`) raises,
the error is logged to the error stream, both caption writers are still
invoked for their requested formats, the file completes normally and the
loop proceeds to the subsequent files; a `txt` or `json` write error, in
contrast, is not isolated: it aborts the file (skipping its remaining
formats) and the whole run, so no subsequent file is processed. -/
theorem caption_write_error_isolated (env : Env) (args : Args)
    (formats : List String) (f : String) (r : TWResult)
    (rest failures : List String)
    (hr : env.transcribe f = Except.ok r) :
    ((∀ p, env.saveText p = none) →
      (processFile env args formats f).2 = Ctl.next ∧
      (∀ e, env.timecoded "srt" f = some e → formats.contains "srt" = true →
        Ev.errMsg ("Failed SRT writing for " ++ f ++ ": " ++ e)
          ∈ (processFile env args formats f).1) ∧
      (∀ e, env.timecoded "vtt" f = some e → formats.contains "vtt" = true →
        Ev.errMsg ("Failed VTT writing for " ++ f ++ ": " ++ e)
          ∈ (processFile env args formats f).1) ∧
      (formats.contains "srt" = true →
        Ev.writerInvoke "srt" (pyJoin args.outDir (stem f)) f
          ∈ (processFile env args formats f).1) ∧
      (formats.contains "vtt" = true →
        Ev.writerInvoke "vtt" (pyJoin args.outDir (stem f)) f
          ∈ (processFile env args formats f).1) ∧
      runLoop env args formats (f :: rest) failures =
        ((processFile env args formats f).1
           ++ (runLoop env args formats rest failures).1,
         (runLoop env args formats rest failures).2)) ∧
    (∀ e, formats.contains "txt" = true →
      env.saveText (pyJoin (pyJoin args.outDir (stem f)) (stem f ++ ".txt")) = some e →
      (processFile env args formats f).2 = Ctl.crashed e ∧
      writesOf (processFile env args formats f).1 = [] ∧
      (∀ k d g, Ev.writerInvoke k d g ∉ (processFile env args formats f).1) ∧
      (runLoop env args formats (f :: rest) failures).2 = Outcome.crash e ∧
      (∀ g, Ev.transcribeCall g ∈ (runLoop env args formats (f :: rest) failures).1 →
        g = f)) ∧
    (∀ e, formats.contains "json" = true →
      env.saveText (pyJoin (pyJoin args.outDir (stem f)) (stem f ++ ".txt")) = none →
      env.saveText (pyJoin (pyJoin args.outDir (stem f)) (stem f ++ ".json")) = some e →
      (processFile env args formats f).2 = Ctl.crashed e ∧
      (∀ k d g, Ev.writerInvoke k d g ∉ (processFile env args formats f).1) ∧
      (runLoop env args formats (f :: rest) failures).2 = Outcome.crash e ∧
      (∀ g, Ev.transcribeCall g ∈ (runLoop env args formats (f :: rest) failures).1 →
        g = f)) := by
  refine ⟨fun hw => ?_, fun e hct hst => ?_, fun e hcj hst1 hstj => ?_⟩
  · have hpf := @processFile_of_ok env args formats f r hw hr
    refine ⟨by rw [hpf], ?_, ?_, ?_, ?_,
      runLoop_cons_next rest failures (by rw [hpf])⟩
    · intro e hsrt hc
      rw [hpf, writeOutputs_of_saveOk hw]
      simp [timecodedStep, hsrt, List.elem_iff.mp hc]
    · intro e hvtt hc
      rw [hpf, writeOutputs_of_saveOk hw]
      simp [timecodedStep, hvtt, List.elem_iff.mp hc]
    · intro hc
      rw [hpf, writeOutputs_of_saveOk hw]
      rcases hv : env.timecoded "srt" f with _ | m <;>
        simp [timecodedStep, hv, List.elem_iff.mp hc]
    · intro hc
      rw [hpf, writeOutputs_of_saveOk hw]
      rcases hv : env.timecoded "vtt" f with _ | m <;>
        simp [timecodedStep, hv, List.elem_iff.mp hc]
  · have hss : saveStep env formats "txt"
        (pyJoin (pyJoin args.outDir (stem f)) (stem f ++ ".txt")) (pyTrim r.text)
        = ([], some e) := by
      rw [saveStep, if_pos hct, hst]
    have hwo : writeOutputs env formats (stem f) (pyJoin args.outDir (stem f)) f r
        = ([], some e) := by
      rw [writeOutputs, hss]
    have hpf : processFile env args formats f =
        ([Ev.mkdirCall (pyJoin args.outDir (stem f)),
          Ev.outMsg ("Transcribing: " ++ f),
          Ev.transcribeCall f], Ctl.crashed e) := by
      simp [processFile, hr, hwo]
    refine ⟨by rw [hpf], by simp [hpf, writesOf],
      fun k d g hmem => by rw [hpf] at hmem; simp at hmem, ?_, ?_⟩
    · rw [runLoop_cons_crashed rest failures (by rw [hpf])]
    · intro g hg
      rw [runLoop_cons_crashed rest failures (by rw [hpf])] at hg
      exact mem_transcribe_processFile hg
  · have hss2 : saveStep env formats "json"
        (pyJoin (pyJoin args.outDir (stem f)) (stem f ++ ".json")) (env.jsonDumps r)
        = ([], some e) := by
      rw [saveStep, if_pos hcj, hstj]
    by_cases hct : formats.contains "txt" = true
    · have hss1 : saveStep env formats "txt"
          (pyJoin (pyJoin args.outDir (stem f)) (stem f ++ ".txt")) (pyTrim r.text)
          = ([Ev.fileWrite (pyJoin (pyJoin args.outDir (stem f)) (stem f ++ ".txt"))
              (pyTrim r.text)], none) := by
        rw [saveStep, if_pos hct, hst1]
      have hwo : writeOutputs env formats (stem f) (pyJoin args.outDir (stem f)) f r
          = ([Ev.fileWrite (pyJoin (pyJoin args.outDir (stem f)) (stem f ++ ".txt"))
              (pyTrim r.text)], some e) := by
        simp only [writeOutputs, hss1, hss2, List.append_nil]
      have hpf : processFile env args formats f =
          ([Ev.mkdirCall (pyJoin args.outDir (stem f)),
            Ev.outMsg ("Transcribing: " ++ f),
            Ev.transcribeCall f,
            Ev.fileWrite (pyJoin (pyJoin args.outDir (stem f)) (stem f ++ ".txt"))
              (pyTrim r.text)], Ctl.crashed e) := by
        simp [processFile, hr, hwo]
      refine ⟨by rw [hpf],
        fun k d g hmem => by rw [hpf] at hmem; simp at hmem, ?_, ?_⟩
      · rw [runLoop_cons_crashed rest failures (by rw [hpf])]
      · intro g hg
        rw [runLoop_cons_crashed rest failures (by rw [hpf])] at hg
        exact mem_transcribe_processFile hg
    · have hss1 : saveStep env formats "txt"
          (pyJoin (pyJoin args.outDir (stem f)) (stem f ++ ".txt")) (pyTrim r.text)
          = ([], none) := by
        rw [saveStep, if_neg hct]
      have hwo : writeOutputs env formats (stem f) (pyJoin args.outDir (stem f)) f r
          = ([], some e) := by
        simp only [writeOutputs, hss1, hss2, List.nil_append]
      have hpf : processFile env args formats f =
          ([Ev.mkdirCall (pyJoin args.outDir (stem f)),
            Ev.outMsg ("Transcribing: " ++ f),
            Ev.transcribeCall f], Ctl.crashed e) := by
        simp [processFile, hr, hwo]
      refine ⟨by rw [hpf],
        fun k d g hmem => by rw [hpf] at hmem; simp at hmem, ?_, ?_⟩
      · rw [runLoop_cons_crashed rest failures (by rw [hpf])]
      · intro g hg
        rw [runLoop_cons_crashed rest failures (by rw [hpf])] at hg
        exact mem_transcribe_processFile hg

/-- C2 amended witness: with both caption writers failing, both failures are
logged yet the file completes; a txt write error crashes the run; a json
write error crashes the run. -/
theorem caption_write_error_isolated_witness :
    ((processFile envCapFailW {} ["txt", "json", "srt", "vtt"] "a.mp3").2 = Ctl.next ∧
     Ev.errMsg "Failed SRT writing for a.mp3: cue error"
       ∈ (processFile envCapFailW {} ["txt", "json", "srt", "vtt"] "a.mp3").1 ∧
     Ev.errMsg "Failed VTT writing for a.mp3: cue error"
       ∈ (processFile envCapFailW {} ["txt", "json", "srt", "vtt"] "a.mp3").1 ∧
     Ev.writerInvoke "srt" "transcripts/a" "a.mp3"
       ∈ (processFile envCapFailW {} ["txt", "json", "srt", "vtt"] "a.mp3").1 ∧
     Ev.writerInvoke "vtt" "transcripts/a" "a.mp3"
       ∈ (processFile envCapFailW {} ["txt", "json", "srt", "vtt"] "a.mp3").1) ∧
    (processFile envTxtCrashW {} ["txt", "json"] "a.mp3").2
      = Ctl.crashed "disk full" ∧
    (processFile envJsonCrashW {} ["txt", "json", "srt", "vtt"] "a.mp3").2
      = Ctl.crashed "disk full" := by
  have h1 := caption_write_error_isolated envCapFailW {} ["txt", "json", "srt", "vtt"]
    "a.mp3" resW [] [] rfl
  have h2 := caption_write_error_isolated envTxtCrashW {} ["txt", "json"]
    "a.mp3" resW [] [] rfl
  have h3 := caption_write_error_isolated envJsonCrashW {} ["txt", "json", "srt", "vtt"]
    "a.mp3" resW [] [] rfl
  have c1 := h1.1 fun _ => rfl
  exact ⟨⟨c1.1, c1.2.1 "cue error" rfl (by decide), c1.2.2.1 "cue error" rfl (by decide),
      c1.2.2.2.1 (by decide), c1.2.2.2.2.1 (by decide)⟩,
    (h2.2.1 "disk full" (by decide) (by decide)).1,
    (h3.2.2 "disk full" (by decide) (by decide) (by decide)).1⟩

end Transcripts
